import Mathlib

/-!
Verification of the SignalP 3.0 Galaxy wrapper (`tools/seq_analysis/signalp3.py`)

A shallow embedding of the wrapper script.  Python strings are modelled as
`List Char` (`PyStr`), file contents as lists of line strings, the filesystem
of run artifacts as the list of existing paths, and the external `signalp`
tool as an oracle from command string to exit status together with an oracle
from result-file path to its lines.
-/

/-- Python strings, modelled as character lists. -/
abbrev PyStr := List Char

/-- The whitespace characters recognised by the Python `str.split()` /
`str.strip()` with no argument. -/
def pyIsSpace (c : Char) : Bool :=
  c = ' ' || c = '\t' || c = '\n' || c = '\r' || c = '\x0b' || c = '\x0c'

/-- Python `s.rstrip()`. -/
def pyRstrip (s : PyStr) : PyStr :=
  (s.reverse.dropWhile pyIsSpace).reverse

/-- Python `s.strip()`. -/
def pyStrip (s : PyStr) : PyStr :=
  (pyRstrip s).dropWhile pyIsSpace

/-- Python `s.rstrip("\r\n")`. -/
def pyRstripCRLF (s : PyStr) : PyStr :=
  (s.reverse.dropWhile (fun c => c = '\r' || c = '\n')).reverse

/-- Worker for `pySplit`; `cur` holds the current field reversed. -/
def pySplitAux : PyStr → PyStr → List PyStr
  | [], cur => if cur = [] then [] else [cur.reverse]
  | c :: rest, cur =>
    if pyIsSpace c then
      if cur = [] then pySplitAux rest []
      else cur.reverse :: pySplitAux rest []
    else pySplitAux rest (c :: cur)

/-- Python `s.split()`: split on runs of whitespace, no empty fields. -/
def pySplit (s : PyStr) : List PyStr :=
  pySplitAux s []

/-- Python `"\t".join(parts)`. -/
def tabJoin (parts : List PyStr) : PyStr :=
  List.intercalate ['\t'] parts

/-- Split a string at every tab character, keeping empty fields: the inverse
reading of `tabJoin`, used to count the tab-separated fields of a line. -/
def splitTab (s : PyStr) : List PyStr :=
  s.splitOn '\t'

/-! ## `fasta_iterator` -/

/-- The state machine of `fasta_iterator`, one step per input line, carrying
the current `title` and `seq` and the records yielded so far.  The second
component of the result is `true` when a `ValueError` ("Bad FASTA line") was
raised; the first component holds the records yielded before that point. -/
def fastaIterAux : List PyStr → PyStr → PyStr → List (PyStr × PyStr) →
    List (PyStr × PyStr) × Bool
  | [], title, seq, acc =>
    (if title ≠ [] then acc ++ [(title, seq)] else acc, false)
  | line :: rest, title, seq, acc =>
    if ['>'].isPrefixOf line then
      fastaIterAux rest (pyRstrip (line.drop 1)) []
        (if title ≠ [] then acc ++ [(title, seq)] else acc)
    else if title ≠ [] then
      fastaIterAux rest title (seq ++ pyStrip line) acc
    else if pyStrip line = [] || ['#'].isPrefixOf line then
      fastaIterAux rest title seq acc
    else
      (acc, true)

/-- Running `fasta_iterator` to completion on the lines of a file:
`.error` when it raises `ValueError`, else the list of
`(title, sequence)` records in file order. -/
def fastaRecords (lines : List PyStr) : Except Unit (List (PyStr × PyStr)) :=
  match fastaIterAux lines [] [] [] with
  | (recs, false) => .ok recs
  | (_, true) => .error ()

/-! ## `split_fasta` -/

/-- Python `"%s.%i.tmp" % (filename, i)`. -/
def chunkFileName (filename : PyStr) (i : Nat) : PyStr :=
  filename ++ ('.' :: (toString i).toList) ++ ".tmp".toList

/-- One record as written to a chunk file: the title unchanged, the
sequence truncated as `seq[:truncate]`. -/
def truncateRecord (truncate : Nat) (r : PyStr × PyStr) : PyStr × PyStr :=
  (r.1, r.2.take truncate)

/-- The `while True` loop of `split_fasta`: draw up to `n` records, stop on
an empty draw, else write chunk file number `idx` and continue.  Each output
entry is the path of the chunk file paired with the records written into it. -/
def splitFastaAux (filename : PyStr) (n truncate : Nat) :
    List (PyStr × PyStr) → Nat → List (PyStr × List (PyStr × PyStr))
  | [], _ => []
  | r :: rs, idx =>
    if h : n = 0 then []
    else
      (chunkFileName filename idx, ((r :: rs).take n).map (truncateRecord truncate)) ::
        splitFastaAux filename n truncate ((r :: rs).drop n) (idx + 1)
termination_by l _ => l.length
decreasing_by
  simp only [List.length_drop]
  simp only [List.length_cons]
  omega

/-- The function `split_fasta(filename, n, truncate)` applied to the records of the input
file: the list of chunk files in creation order, each with its contents. -/
def splitFasta (filename : PyStr) (records : List (PyStr × PyStr))
    (n truncate : Nat) : List (PyStr × List (PyStr × PyStr)) :=
  splitFastaAux filename n truncate records 0

/-! ## `clean_tabular` -/

/-- The outcome of the loop body of `clean_tabular` on one raw line. -/
inductive CleanLine where
  /-- Skipped by `continue`: the line is empty or starts with `#`. -/
  | skipped : CleanLine
  /-- The reordered line written to the output handle (without newline). -/
  | emitted (out : PyStr) : CleanLine
  /-- One of the two `assert` statements failed. -/
  | schemaError : CleanLine
deriving DecidableEq, Repr

/-- The body of the `clean_tabular` loop for one line. -/
def cleanTabularLine (line : PyStr) : CleanLine :=
  if line = [] || ['#'].isPrefixOf line then .skipped
  else
    let parts := pySplit (pyRstripCRLF line)
    if parts.length = 21 then
      if (parts.getD 0 []).isPrefixOf (parts.getD 14 []) then
        .emitted (tabJoin ((parts.drop 14).take 1 ++ (parts.drop 1).take 13 ++
          parts.drop 15))
      else .schemaError
    else .schemaError

/-- Running `clean_tabular` over a whole result file: the lines written to the output
handle, and whether an `AssertionError` aborted the loop (lines written
before the failing line are kept, as they were already written). -/
def cleanTabular : List PyStr → List PyStr × Bool
  | [] => ([], false)
  | line :: rest =>
    match cleanTabularLine line with
    | .skipped => cleanTabular rest
    | .emitted out =>
      let r := cleanTabular rest
      (out :: r.1, r.2)
    | .schemaError => ([], true)

/-! ## Module-level pipeline -/

/-- The constant `FASTA_CHUNK = 500`. -/
def FASTA_CHUNK : Nat := 500

/-- The constant `TRUNCATE = 60`. -/
def TRUNCATE : Nat := 60

/-- The organisms accepted by the argument check: `["euk", "gram+", "gram-"]`. -/
def validOrganisms : List PyStr :=
  ["euk", "gram+", "gram-"].map String.toList

/-- The (unformatted, as in the source) diagnostic for a bad organism. -/
def organismErrMsg : PyStr :=
  "Organism argument %s is not one of euk, gram+ or gram-".toList

/-- The diagnostic of the `ValueError` raised on a bad FASTA line. -/
def badLineMsg : PyStr :=
  "Bad FASTA line".toList

/-- The command `"signalp -short -t %s %s > %s" % (organism, fasta, temp)`. -/
def signalpCmd (organism fasta temp : PyStr) : PyStr :=
  "signalp -short -t ".toList ++ organism ++ [' '] ++ fasta ++
    " > ".toList ++ temp

/-- The diagnostic `"Failed with error level %i, %r" % (error_level, cmd)`. -/
def failMsg (errorLevel : Nat) (cmd : PyStr) : PyStr :=
  "Failed with error level ".toList ++ (toString errorLevel).toList ++
    [',', ' ', '\x27'] ++ cmd ++ ['\x27']

/-- Running `clean_up(file_list)` on a filesystem `fs` (the list of existing run
artifacts): each listed path is removed if it exists; absent paths are
tolerated (`os.path.isfile` guard). -/
def cleanUp (fs : List PyStr) (fileList : List PyStr) : List PyStr :=
  fs.filter (fun f => f ∉ fileList)

/-- The per-chunk invocation loop.  For each `(fasta, temp)` pair in order:
the shell redirect creates `temp`, the command runs with exit status
`exitOracle cmd`, and a non-zero status stops the loop.  Returns the
filesystem, the commands invoked in order, and `some (cmd, errorLevel)` on
failure. -/
def invokeLoop (organism : PyStr) (exitOracle : PyStr → Nat) :
    List (PyStr × PyStr) → List PyStr → List PyStr →
    List PyStr × List PyStr × Option (PyStr × Nat)
  | [], fs, invoked => (fs, invoked, none)
  | (fasta, temp) :: rest, fs, invoked =>
    let cmd := signalpCmd organism fasta temp
    let errorLevel := exitOracle cmd
    if errorLevel ≠ 0 then (fs ++ [temp], invoked ++ [cmd], some (cmd, errorLevel))
    else invokeLoop organism exitOracle rest (fs ++ [temp]) (invoked ++ [cmd])

/-- The canonical output column names, built exactly as in the source. -/
def fieldNames : List PyStr :=
  (["ID"].map String.toList) ++
    ((["Cmax", "Ymax", "Smax"].map String.toList).flatMap fun name =>
      ["NN_".toList ++ name ++ "_score".toList,
       "NN_".toList ++ name ++ "_pos".toList,
       "NN_".toList ++ name ++ "_pred".toList]) ++
    (["NN_Smean_score", "NN_Smean_pred", "NN_D_score", "NN_D_pred"].map
      String.toList) ++
    (["HMM_type", "HMM_Cmax_score", "HMM_Cmax_pos", "HMM_Cmax_pred",
      "HMM_Sprob_score", "HMM_Sprob_pred"].map String.toList)

/-- The header line `"#" + "\t".join(fields)` (without newline). -/
def headerLine : PyStr :=
  '#' :: tabJoin fieldNames

/-- The merge loop over the result files, in chunk order: `clean_tabular` on
the lines of each file, concatenated; `true` when an `AssertionError` aborted it
(output written before the failure is kept). -/
def mergeAux (rawOut : PyStr → List PyStr) : List PyStr → List PyStr × Bool
  | [] => ([], false)
  | f :: rest =>
    let r := cleanTabular (rawOut f)
    if r.2 then (r.1, true)
    else
      let r2 := mergeAux rawOut rest
      (r.1 ++ r2.1, r2.2)

/-- The whole merge step: header line first, then the concatenated
normalised bodies of the result files in chunk order. -/
def mergeResults (tempFiles : List PyStr) (rawOut : PyStr → List PyStr) :
    List PyStr × Bool :=
  let r := mergeAux rawOut tempFiles
  (headerLine :: r.1, r.2)

/-- The observable outcome of one run of the script. -/
structure RunResult where
  /-- The status passed to `sys.exit` (0 on success). -/
  exitCode : Nat
  /-- Lines written to standard error. -/
  stderr : List PyStr
  /-- The external commands invoked, in order. -/
  invoked : List PyStr
  /-- Chunk input and result files still existing when the run ends. -/
  fs : List PyStr
  /-- The lines of the output tabular file, `none` if it was never opened. -/
  output : Option (List PyStr)
deriving DecidableEq, Repr

/-- The module-level body of the script, from the organism check to the final
`clean_up` calls.  `fastaLines` are the lines of the input FASTA file,
`exitOracle` gives the return value of `os.system` for each command, and `rawOut`
gives the lines the external tool wrote into each result file. -/
def signalp3 (organism fastaFile : PyStr) (fastaLines : List PyStr)
    (exitOracle : PyStr → Nat) (rawOut : PyStr → List PyStr) : RunResult :=
  if organism ∉ validOrganisms then
    { exitCode := 1, stderr := [organismErrMsg], invoked := [], fs := [],
      output := none }
  else
    match fastaIterAux fastaLines [] [] [] with
    | (recs, true) =>
      -- ValueError inside split_fasta: the chunk files completed before the
      -- bad line (one per full group of FASTA_CHUNK yielded records) remain.
      { exitCode := 1, stderr := [badLineMsg], invoked := [],
        fs := (List.range (recs.length / FASTA_CHUNK)).map (chunkFileName fastaFile),
        output := none }
    | (records, false) =>
      let files := splitFasta fastaFile records FASTA_CHUNK TRUNCATE
      let fastaFiles := files.map (·.1)
      let tempFiles := fastaFiles.map (· ++ ".out".toList)
      match invokeLoop organism exitOracle (fastaFiles.zip tempFiles) fastaFiles [] with
      | (fs, invoked, some (cmd, errorLevel)) =>
        { exitCode := errorLevel, stderr := [failMsg errorLevel cmd],
          invoked := invoked,
          fs := cleanUp (cleanUp fs fastaFiles) tempFiles, output := none }
      | (fs, invoked, none) =>
        let merged := mergeResults tempFiles rawOut
        if merged.2 then
          -- AssertionError during the merge: no clean_up, partial output.
          { exitCode := 1, stderr := ["AssertionError".toList], invoked := invoked,
            fs := fs, output := some merged.1 }
        else
          { exitCode := 0, stderr := [], invoked := invoked,
            fs := cleanUp (cleanUp fs fastaFiles) tempFiles,
            output := some merged.1 }

/-- The name of the result file of chunk `i`, `"%s.%i.tmp.out"`. -/
def chunkTempName (filename : PyStr) (i : Nat) : PyStr :=
  chunkFileName filename i ++ ".out".toList

/-- The command the invocation loop runs for chunk `i`. -/
def chunkCmd (organism filename : PyStr) (i : Nat) : PyStr :=
  signalpCmd organism (chunkFileName filename i) (chunkTempName filename i)

/-- The output `clean_tabular` writes for one raw line, `none` when the line
is skipped or fails an assertion. -/
def emittedLine (line : PyStr) : Option PyStr :=
  match cleanTabularLine line with
  | .emitted out => some out
  | _ => none

/-! ## Lemmas about `clean_tabular` on single lines -/

theorem cleanTabularLine_emit (line : PyStr) (h1 : line ≠ [])
    (h2 : ¬ ['#'].isPrefixOf line)
    (hlen : (pySplit (pyRstripCRLF line)).length = 21)
    (hpre : ((pySplit (pyRstripCRLF line)).getD 0 []).isPrefixOf
      ((pySplit (pyRstripCRLF line)).getD 14 [])) :
    cleanTabularLine line = CleanLine.emitted
      (tabJoin (((pySplit (pyRstripCRLF line)).drop 14).take 1 ++
        ((pySplit (pyRstripCRLF line)).drop 1).take 13 ++
        (pySplit (pyRstripCRLF line)).drop 15)) := by
  unfold cleanTabularLine
  simp only [h1, h2]
  rw [if_pos hlen, if_pos hpre]
  simp

theorem cleanTabularLine_err_length (line : PyStr) (h1 : line ≠ [])
    (h2 : ¬ ['#'].isPrefixOf line)
    (hlen : (pySplit (pyRstripCRLF line)).length ≠ 21) :
    cleanTabularLine line = CleanLine.schemaError := by
  unfold cleanTabularLine
  simp only [h1, h2]
  rw [if_neg hlen]
  simp

theorem cleanTabularLine_err_prefix (line : PyStr) (h1 : line ≠ [])
    (h2 : ¬ ['#'].isPrefixOf line)
    (hpre : ¬ ((pySplit (pyRstripCRLF line)).getD 0 []).isPrefixOf
      ((pySplit (pyRstripCRLF line)).getD 14 [])) :
    cleanTabularLine line = CleanLine.schemaError := by
  unfold cleanTabularLine
  simp only [h1, h2]
  by_cases hlen : (pySplit (pyRstripCRLF line)).length = 21
  · rw [if_pos hlen, if_neg hpre]
    simp
  · rw [if_neg hlen]
    simp

theorem cleanTabularLine_not_skipped (line : PyStr)
    (h1 : line ≠ []) (h2 : ¬ ['#'].isPrefixOf line) :
    cleanTabularLine line ≠ CleanLine.skipped := by
  unfold cleanTabularLine
  simp only [h1, h2]
  rw [if_neg (by simp)]
  split
  · split <;> simp
  · simp

/-- C9: every raw result line that is empty or begins with `#` is skipped by
the normalizer: it produces no output for that line and raises no error, so
`clean_tabular` on the rest of the file is unchanged. -/
theorem cleanTabularLine_skip (line : PyStr) (rest : List PyStr)
    (h : line = [] ∨ ['#'].isPrefixOf line) :
    cleanTabularLine line = CleanLine.skipped ∧
      cleanTabular (line :: rest) = cleanTabular rest := by
  have hs : cleanTabularLine line = CleanLine.skipped := by
    unfold cleanTabularLine
    rcases h with h | h <;> simp [h]
  exact ⟨hs, by simp only [cleanTabular, hs]⟩

theorem cleanTabularLine_skip_witness :
    (("# comment".toList : PyStr) = [] ∨ ['#'].isPrefixOf ("# comment".toList)) ∧
      (cleanTabularLine ("# comment".toList) = CleanLine.skipped ∧
        cleanTabular ["# comment".toList, "x".toList] = cleanTabular ["x".toList]) :=
  ⟨Or.inr (by decide), cleanTabularLine_skip _ _ (Or.inr (by decide))⟩

/-- C3: for every non-skipped raw line, the normalizer fails with an
assertion error, producing no output, if and only if the whitespace-split
field count differs from 21 or field 14 does not start with field 0; in
every other case it emits a normalized line. -/
theorem cleanTabularLine_error_iff (line : PyStr)
    (h1 : line ≠ []) (h2 : ¬ ['#'].isPrefixOf line) :
    (cleanTabularLine line = CleanLine.schemaError ↔
      ((pySplit (pyRstripCRLF line)).length ≠ 21 ∨
        ¬ ((pySplit (pyRstripCRLF line)).getD 0 []).isPrefixOf
            ((pySplit (pyRstripCRLF line)).getD 14 []))) ∧
      cleanTabularLine line ≠ CleanLine.skipped ∧
      (((pySplit (pyRstripCRLF line)).length = 21 ∧
        ((pySplit (pyRstripCRLF line)).getD 0 []).isPrefixOf
            ((pySplit (pyRstripCRLF line)).getD 14 [])) →
        ∃ out, cleanTabularLine line = CleanLine.emitted out) := by
  refine ⟨⟨fun herr => ?_, fun hor => ?_⟩,
    cleanTabularLine_not_skipped line h1 h2, fun hand => ?_⟩
  · by_contra hc
    push_neg at hc
    obtain ⟨hlen, hpre⟩ := hc
    rw [cleanTabularLine_emit line h1 h2 hlen hpre] at herr
    exact absurd herr (by simp)
  · rcases hor with hlen | hpre
    · exact cleanTabularLine_err_length line h1 h2 hlen
    · exact cleanTabularLine_err_prefix line h1 h2 hpre
  · exact ⟨_, cleanTabularLine_emit line h1 h2 hand.1 hand.2⟩

theorem cleanTabularLine_error_iff_witness :
    (("x 1 2 3".toList : PyStr) ≠ [] ∧ ¬ ['#'].isPrefixOf ("x 1 2 3".toList)) ∧
      ((cleanTabularLine ("x 1 2 3".toList) = CleanLine.schemaError ↔
        ((pySplit (pyRstripCRLF ("x 1 2 3".toList))).length ≠ 21 ∨
          ¬ ((pySplit (pyRstripCRLF ("x 1 2 3".toList))).getD 0 []).isPrefixOf
              ((pySplit (pyRstripCRLF ("x 1 2 3".toList))).getD 14 []))) ∧
        cleanTabularLine ("x 1 2 3".toList) ≠ CleanLine.skipped ∧
        (((pySplit (pyRstripCRLF ("x 1 2 3".toList))).length = 21 ∧
          ((pySplit (pyRstripCRLF ("x 1 2 3".toList))).getD 0 []).isPrefixOf
              ((pySplit (pyRstripCRLF ("x 1 2 3".toList))).getD 14 [])) →
          ∃ out, cleanTabularLine ("x 1 2 3".toList) = CleanLine.emitted out)) :=
  ⟨⟨by decide, by decide⟩,
    cleanTabularLine_error_iff ("x 1 2 3".toList) (by decide) (by decide)⟩

/-- C7: for every organism argument outside euk, gram+ and gram-, the run
fails immediately with exit status 1 and the fixed diagnostic, performing no
invocation, creating no files and writing no output table. -/
theorem signalp3_bad_organism (organism fastaFile : PyStr)
    (lines : List PyStr) (exitOracle : PyStr → Nat) (rawOut : PyStr → List PyStr)
    (h : organism ∉ validOrganisms) :
    signalp3 organism fastaFile lines exitOracle rawOut =
      { exitCode := 1, stderr := [organismErrMsg], invoked := [], fs := [],
        output := none } := by
  unfold signalp3
  simp [h]

theorem signalp3_bad_organism_witness :
    ("human".toList : PyStr) ∉ validOrganisms ∧
      signalp3 ("human".toList) "f".toList [] (fun _ => 0) (fun _ => []) =
        { exitCode := 1, stderr := [organismErrMsg], invoked := [], fs := [],
          output := none } :=
  ⟨by decide, signalp3_bad_organism _ _ _ _ _ (by decide)⟩

/-! ## Fields produced by `pySplit` -/

theorem pySplitAux_fields (s : PyStr) :
    ∀ cur, (∀ c ∈ cur, pyIsSpace c = false) →
      ∀ f ∈ pySplitAux s cur, f ≠ [] ∧ ∀ c ∈ f, pyIsSpace c = false := by
  induction s with
  | nil =>
    intro cur hcur f hf
    unfold pySplitAux at hf
    by_cases h : cur = []
    · simp [h] at hf
    · rw [if_neg h] at hf
      rw [List.mem_singleton] at hf
      subst hf
      refine ⟨by simpa using h, fun c hc => hcur c (by simpa using hc)⟩
  | cons c rest ih =>
    intro cur hcur f hf
    unfold pySplitAux at hf
    by_cases hsp : pyIsSpace c
    · rw [if_pos hsp] at hf
      by_cases hc : cur = []
      · rw [if_pos hc] at hf
        exact ih [] (by simp) f hf
      · rw [if_neg hc] at hf
        rcases List.mem_cons.mp hf with hf | hf
        · subst hf
          refine ⟨by simpa using hc, fun a ha => hcur a (by simpa using ha)⟩
        · exact ih [] (by simp) f hf
    · rw [if_neg hsp] at hf
      refine ih (c :: cur) ?_ f hf
      intro a ha
      rcases List.mem_cons.mp ha with ha | ha
      · subst ha
        simpa using hsp
      · exact hcur a ha

theorem pySplit_fields (s : PyStr) :
    ∀ f ∈ pySplit s, f ≠ [] ∧ '\t' ∉ f := by
  intro f hf
  obtain ⟨hne, hsp⟩ := pySplitAux_fields s [] (by simp) f hf
  refine ⟨hne, fun ht => ?_⟩
  have := hsp '\t' ht
  simp [pyIsSpace] at this

theorem splitTab_tabJoin (parts : List PyStr) (hne : parts ≠ [])
    (htab : ∀ f ∈ parts, '\t' ∉ f) :
    splitTab (tabJoin parts) = parts :=
  List.splitOn_intercalate parts '\t' htab hne

/-- C2 (amended): for every syntactically valid raw result line with exactly
21 whitespace-separated fields whose field 14 starts with field 0, the
normalizer emits a line with exactly 20 tab-separated fields: the full
identifier (raw field 14) as output field 0, then the 13 NN-derived fields
(raw fields 1 to 13), then the 6 HMM-derived fields (raw fields 15 to 20). -/
theorem cleanTabularLine_twenty_fields (line : PyStr)
    (h1 : line ≠ []) (h2 : ¬ ['#'].isPrefixOf line)
    (hlen : (pySplit (pyRstripCRLF line)).length = 21)
    (hpre : ((pySplit (pyRstripCRLF line)).getD 0 []).isPrefixOf
      ((pySplit (pyRstripCRLF line)).getD 14 [])) :
    ∃ out, cleanTabularLine line = CleanLine.emitted out ∧
      splitTab out = (pySplit (pyRstripCRLF line)).getD 14 [] ::
        (((pySplit (pyRstripCRLF line)).drop 1).take 13 ++
          (pySplit (pyRstripCRLF line)).drop 15) ∧
      (splitTab out).length = 20 := by
  have h14 : 14 < (pySplit (pyRstripCRLF line)).length := by omega
  have hd : ((pySplit (pyRstripCRLF line)).drop 14).take 1 =
      [(pySplit (pyRstripCRLF line)).getD 14 []] := by
    rw [List.getD_eq_getElem _ _ h14, List.drop_eq_getElem_cons h14]
    simp only [List.take_succ_cons, List.take_zero]
  have htab : ∀ f ∈ ((pySplit (pyRstripCRLF line)).drop 14).take 1 ++
      ((pySplit (pyRstripCRLF line)).drop 1).take 13 ++
      (pySplit (pyRstripCRLF line)).drop 15, '\t' ∉ f := by
    intro f hf
    rcases List.mem_append.mp hf with hf | hf
    · rcases List.mem_append.mp hf with hf | hf
      · exact (pySplit_fields _ f
          (List.drop_subset _ _ (List.mem_of_mem_take hf))).2
      · exact (pySplit_fields _ f
          (List.drop_subset _ _ (List.mem_of_mem_take hf))).2
    · exact (pySplit_fields _ f (List.drop_subset _ _ hf)).2
  have hne : ((pySplit (pyRstripCRLF line)).drop 14).take 1 ++
      ((pySplit (pyRstripCRLF line)).drop 1).take 13 ++
      (pySplit (pyRstripCRLF line)).drop 15 ≠ [] := by
    rw [hd]
    simp
  have hst := splitTab_tabJoin _ hne htab
  refine ⟨_, cleanTabularLine_emit line h1 h2 hlen hpre, ?_, ?_⟩
  · rw [hst, hd]
    simp
  · rw [hst, hd]
    simp only [List.length_cons, List.length_nil, List.length_append,
      List.length_take, List.length_drop, hlen]
    omega

theorem cleanTabularLine_twenty_fields_witness :
    (("a 1 2 3 4 5 6 7 8 9 10 11 12 13 ab 15 16 17 18 19 20".toList : PyStr) ≠ [] ∧
      ¬ ['#'].isPrefixOf
        "a 1 2 3 4 5 6 7 8 9 10 11 12 13 ab 15 16 17 18 19 20".toList ∧
      (pySplit (pyRstripCRLF
        "a 1 2 3 4 5 6 7 8 9 10 11 12 13 ab 15 16 17 18 19 20".toList)).length = 21 ∧
      ((pySplit (pyRstripCRLF
        "a 1 2 3 4 5 6 7 8 9 10 11 12 13 ab 15 16 17 18 19 20".toList)).getD 0
          []).isPrefixOf
        ((pySplit (pyRstripCRLF
          "a 1 2 3 4 5 6 7 8 9 10 11 12 13 ab 15 16 17 18 19 20".toList)).getD 14
            [])) ∧
      ∃ out, cleanTabularLine
          "a 1 2 3 4 5 6 7 8 9 10 11 12 13 ab 15 16 17 18 19 20".toList =
            CleanLine.emitted out ∧
        splitTab out = (pySplit (pyRstripCRLF
            "a 1 2 3 4 5 6 7 8 9 10 11 12 13 ab 15 16 17 18 19 20".toList)).getD 14
            [] ::
          (((pySplit (pyRstripCRLF
            "a 1 2 3 4 5 6 7 8 9 10 11 12 13 ab 15 16 17 18 19 20".toList)).drop
              1).take 13 ++
            (pySplit (pyRstripCRLF
              "a 1 2 3 4 5 6 7 8 9 10 11 12 13 ab 15 16 17 18 19 20".toList)).drop
                15) ∧
        (splitTab out).length = 20 :=
  ⟨⟨by decide, by decide, by decide, by decide⟩,
    cleanTabularLine_twenty_fields _ (by decide) (by decide) (by decide) (by decide)⟩

/-- C2 counterexample: a syntactically valid raw line with exactly 21
whitespace-separated fields whose field 14 starts with field 0, on which the
output line of the normalizer has 20 tab-separated fields, not 19 as claimed. -/
theorem cleanTabularLine_nineteen_cex :
    (pySplit (pyRstripCRLF
      "a 1 2 3 4 5 6 7 8 9 10 11 12 13 ab 15 16 17 18 19 20".toList)).length = 21 ∧
      ((pySplit (pyRstripCRLF
        "a 1 2 3 4 5 6 7 8 9 10 11 12 13 ab 15 16 17 18 19 20".toList)).getD 0
          []).isPrefixOf
        ((pySplit (pyRstripCRLF
          "a 1 2 3 4 5 6 7 8 9 10 11 12 13 ab 15 16 17 18 19 20".toList)).getD 14
            []) ∧
      cleanTabularLine
        "a 1 2 3 4 5 6 7 8 9 10 11 12 13 ab 15 16 17 18 19 20".toList =
          CleanLine.emitted
            "ab\t1\t2\t3\t4\t5\t6\t7\t8\t9\t10\t11\t12\t13\t15\t16\t17\t18\t19\t20".toList ∧
      (splitTab
        "ab\t1\t2\t3\t4\t5\t6\t7\t8\t9\t10\t11\t12\t13\t15\t16\t17\t18\t19\t20".toList).length
        ≠ 19 := by
  refine ⟨by decide, by decide, by decide, by decide⟩

/-! ## Lemmas about `split_fasta` -/

theorem splitFastaAux_zero (filename : PyStr) (t : Nat)
    (l : List (PyStr × PyStr)) (idx : Nat) :
    splitFastaAux filename 0 t l idx = [] := by
  cases l <;> simp [splitFastaAux]

theorem splitFastaAux_flatMap (filename : PyStr) (n t : Nat) (hn : n ≠ 0)
    (l : List (PyStr × PyStr)) (idx : Nat) :
    (splitFastaAux filename n t l idx).flatMap (fun f => f.2) =
      l.map (truncateRecord t) := by
  induction l, idx using splitFastaAux.induct filename n t with
  | case1 idx => simp [splitFastaAux]
  | case2 r rs idx h => exact absurd h hn
  | case3 r rs idx h ih =>
    rw [splitFastaAux]
    simp only [dif_neg hn]
    rw [List.flatMap_cons, ih, ← List.map_append, List.take_append_drop]

theorem ceil_div_step (n : Nat) (hn : n ≠ 0) (m : Nat) (hm : 1 ≤ m) :
    (m - n + n - 1) / n + 1 = (m + n - 1) / n := by
  rcases le_or_lt m n with hmn | hmn
  · have h0 : m - n = 0 := by omega
    rw [h0, Nat.div_eq_of_lt (by omega)]
    have hub : (m + n - 1) / n < 2 := by
      rw [Nat.div_lt_iff_lt_mul (by omega)]
      omega
    have hlb : 1 ≤ (m + n - 1) / n := by
      rw [Nat.le_div_iff_mul_le (by omega)]
      omega
    omega
  · have h1 : m - n + n - 1 = m - 1 := by omega
    have h2 : m + n - 1 = m - 1 + n := by omega
    rw [h1, h2, Nat.add_div_right _ (by omega)]

theorem splitFastaAux_length (filename : PyStr) (n t : Nat) (hn : n ≠ 0)
    (l : List (PyStr × PyStr)) (idx : Nat) :
    (splitFastaAux filename n t l idx).length = (l.length + n - 1) / n := by
  induction l, idx using splitFastaAux.induct filename n t with
  | case1 idx =>
    rw [splitFastaAux]
    simp only [List.length_nil]
    rw [Nat.div_eq_of_lt (by omega)]
  | case2 r rs idx h => exact absurd h hn
  | case3 r rs idx h ih =>
    rw [splitFastaAux]
    simp only [dif_neg hn, List.length_cons]
    rw [ih, List.length_drop]
    simp only [List.length_cons]
    exact ceil_div_step n hn (rs.length + 1) (by omega)

theorem splitFastaAux_getElem (filename : PyStr) (n t : Nat) (hn : n ≠ 0)
    (l : List (PyStr × PyStr)) (idx : Nat) :
    ∀ i, i < (splitFastaAux filename n t l idx).length →
      (splitFastaAux filename n t l idx)[i]? =
        some (chunkFileName filename (idx + i),
          ((l.drop (n * i)).take n).map (truncateRecord t)) := by
  induction l, idx using splitFastaAux.induct filename n t with
  | case1 idx =>
    intro i hi
    rw [splitFastaAux] at hi
    simp at hi
  | case2 r rs idx h => exact absurd h hn
  | case3 r rs idx h ih =>
    intro i hi
    rw [splitFastaAux] at hi ⊢
    simp only [dif_neg hn, List.length_cons] at hi ⊢
    match i with
    | 0 =>
      rw [List.getElem?_cons_zero]
      simp
    | Nat.succ i =>
      rw [List.getElem?_cons_succ, ih i (by omega), List.drop_drop]
      simp only [Nat.succ_eq_add_one]
      have e1 : idx + 1 + i = idx + (i + 1) := by omega
      have e2 : n + n * i = n * (i + 1) := by rw [Nat.mul_succ]; omega
      rw [e1, e2]

/-- C1: for every well-formed FASTA input with at least one record and chunk
size `C > 0`, `split_fasta` produces exactly `ceil(N/C)` chunk files whose
paths carry consecutive ordinals starting at 0 (creation order); each of the
first `ceil(N/C) - 1` files holds exactly `C` records, and the last holds
the remaining `N - C*(ceil(N/C) - 1)` records, a number between 1 and `C`. -/
theorem splitFasta_chunk_sizes (filename : PyStr)
    (records : List (PyStr × PyStr)) (C T : Nat)
    (hC : 0 < C) (hN : 0 < records.length) :
    (splitFasta filename records C T).length = (records.length + C - 1) / C ∧
    (∀ i, i < (splitFasta filename records C T).length →
      ((splitFasta filename records C T)[i]?.getD ([], [])).1 =
        chunkFileName filename i) ∧
    (∀ i, i + 1 < (splitFasta filename records C T).length →
      ((splitFasta filename records C T)[i]?.getD ([], [])).2.length = C) ∧
    (((splitFasta filename records C T)[(splitFasta filename records C T).length
        - 1]?.getD ([], [])).2.length =
      records.length - C * ((splitFasta filename records C T).length - 1) ∧
      1 ≤ records.length - C * ((splitFasta filename records C T).length - 1) ∧
      records.length - C * ((splitFasta filename records C T).length - 1) ≤ C) := by
  have hC' : C ≠ 0 := by omega
  have hsf : splitFasta filename records C T = splitFastaAux filename C T records 0 :=
    rfl
  have hlen : (splitFasta filename records C T).length =
      (records.length + C - 1) / C := by
    rw [hsf]
    exact splitFastaAux_length filename C T hC' records 0
  have hq := Nat.div_add_mod (records.length + C - 1) C
  have hmod : (records.length + C - 1) % C < C := Nat.mod_lt _ hC
  have hq1 : 1 ≤ (records.length + C - 1) / C := by
    by_contra hq0
    push_neg at hq0
    have h0 : (records.length + C - 1) / C = 0 := by omega
    rw [h0, Nat.mul_zero] at hq
    omega
  have hchunk : ∀ i, i < (splitFasta filename records C T).length →
      ((splitFasta filename records C T)[i]?.getD ([], [])) =
        (chunkFileName filename i,
          ((records.drop (C * i)).take C).map (truncateRecord T)) := by
    intro i hi
    rw [hsf] at hi ⊢
    rw [splitFastaAux_getElem filename C T hC' records 0 i hi]
    simp
  refine ⟨hlen, ?_, ?_, ?_⟩
  · intro i hi
    rw [hchunk i hi]
  · intro i hi
    rw [hchunk i (by omega)]
    simp only [List.length_map, List.length_take, List.length_drop]
    have hiq : i + 1 < (records.length + C - 1) / C := by rw [← hlen]; exact hi
    have hmono : C * (i + 2) ≤ C * ((records.length + C - 1) / C) :=
      Nat.mul_le_mul_left C (by omega)
    have e1 : C * (i + 2) = C * (i + 1) + C := by rw [Nat.mul_succ]
    have e2 : C * (i + 1) = C * i + C := by rw [Nat.mul_succ]
    omega
  · have hlast : (splitFasta filename records C T).length - 1 <
        (splitFasta filename records C T).length := by
      rw [hlen]; omega
    rw [hchunk _ hlast, hlen]
    simp only [List.length_map, List.length_take, List.length_drop]
    obtain ⟨k, hk⟩ : ∃ k, (records.length + C - 1) / C = k + 1 :=
      ⟨(records.length + C - 1) / C - 1, by omega⟩
    rw [hk]
    simp only [Nat.add_sub_cancel]
    have e1 : C * (k + 1) = C * k + C := by rw [Nat.mul_succ]
    rw [hk] at hq
    omega

theorem splitFasta_chunk_sizes_witness :
    (0 < 2 ∧
      0 < ([(("a".toList : PyStr), ("".toList : PyStr)),
        ("b".toList, "".toList), ("c".toList, "".toList)] :
          List (PyStr × PyStr)).length) ∧
      ((splitFasta ("f".toList) [("a".toList, "".toList), ("b".toList, "".toList),
          ("c".toList, "".toList)] 2 60).length =
        (([("a".toList, "".toList), ("b".toList, "".toList),
          ("c".toList, "".toList)] : List (PyStr × PyStr)).length + 2 - 1) / 2 ∧
      (∀ i, i < (splitFasta ("f".toList) [("a".toList, "".toList),
          ("b".toList, "".toList), ("c".toList, "".toList)] 2 60).length →
        ((splitFasta ("f".toList) [("a".toList, "".toList), ("b".toList, "".toList),
            ("c".toList, "".toList)] 2 60)[i]?.getD ([], [])).1 =
          chunkFileName ("f".toList) i) ∧
      (∀ i, i + 1 < (splitFasta ("f".toList) [("a".toList, "".toList),
          ("b".toList, "".toList), ("c".toList, "".toList)] 2 60).length →
        ((splitFasta ("f".toList) [("a".toList, "".toList), ("b".toList, "".toList),
            ("c".toList, "".toList)] 2 60)[i]?.getD ([], [])).2.length = 2) ∧
      (((splitFasta ("f".toList) [("a".toList, "".toList), ("b".toList, "".toList),
          ("c".toList, "".toList)] 2 60)[(splitFasta ("f".toList)
            [("a".toList, "".toList), ("b".toList, "".toList),
              ("c".toList, "".toList)] 2 60).length - 1]?.getD ([], [])).2.length =
        ([("a".toList, "".toList), ("b".toList, "".toList),
          ("c".toList, "".toList)] : List (PyStr × PyStr)).length -
          2 * ((splitFasta ("f".toList) [("a".toList, "".toList),
            ("b".toList, "".toList), ("c".toList, "".toList)] 2 60).length - 1) ∧
        1 ≤ ([("a".toList, "".toList), ("b".toList, "".toList),
          ("c".toList, "".toList)] : List (PyStr × PyStr)).length -
          2 * ((splitFasta ("f".toList) [("a".toList, "".toList),
            ("b".toList, "".toList), ("c".toList, "".toList)] 2 60).length - 1) ∧
        ([("a".toList, "".toList), ("b".toList, "".toList),
          ("c".toList, "".toList)] : List (PyStr × PyStr)).length -
          2 * ((splitFasta ("f".toList) [("a".toList, "".toList),
            ("b".toList, "".toList), ("c".toList, "".toList)] 2 60).length - 1) ≤ 2)) :=
  ⟨⟨by decide, by decide⟩,
    splitFasta_chunk_sizes ("f".toList) [("a".toList, "".toList),
      ("b".toList, "".toList), ("c".toList, "".toList)] 2 60
      (by decide) (by decide)⟩

/-- C5: concatenating the records of all chunk files in the returned order
reproduces the original record order and titles exactly, each sequence being
the original truncated at position `T`. -/
theorem splitFasta_roundTrip (filename : PyStr)
    (records : List (PyStr × PyStr)) (C T : Nat) (hC : 0 < C) :
    (splitFasta filename records C T).flatMap (fun f => f.2) =
      records.map (truncateRecord T) :=
  splitFastaAux_flatMap filename C T (by omega) records 0

theorem splitFasta_roundTrip_witness :
    0 < 2 ∧
      (splitFasta ("f".toList) [("a".toList, "XYZW".toList),
        ("b".toList, "QQ".toList), ("c".toList, "M".toList)] 2 3).flatMap
          (fun f => f.2) =
        ([("a".toList, "XYZW".toList), ("b".toList, "QQ".toList),
          ("c".toList, "M".toList)] : List (PyStr × PyStr)).map
          (truncateRecord 3) :=
  ⟨by decide,
    splitFasta_roundTrip ("f".toList) [("a".toList, "XYZW".toList),
      ("b".toList, "QQ".toList), ("c".toList, "M".toList)] 2 3 (by decide)⟩

/-- C4: every record written to a chunk file comes from an input record with
the same title and the sequence cut as `seq[:T]`: when the original sequence
is longer than `T` the written sequence has length exactly `T`, and when it
is no longer than `T` it is written unchanged. -/
theorem splitFasta_truncation (filename : PyStr)
    (records : List (PyStr × PyStr)) (C T : Nat)
    (file : PyStr × List (PyStr × PyStr)) (t w : PyStr)
    (hfile : file ∈ splitFasta filename records C T) (hrec : (t, w) ∈ file.2) :
    ∃ s, (t, s) ∈ records ∧ w = s.take T ∧
      (T < s.length → w.length = T) ∧ (s.length ≤ T → w = s) := by
  have hC : C ≠ 0 := by
    intro h0
    rw [h0] at hfile
    rw [splitFasta, splitFastaAux_zero] at hfile
    simp at hfile
  have hmem : (t, w) ∈ (splitFasta filename records C T).flatMap (fun f => f.2) :=
    List.mem_flatMap.mpr ⟨file, hfile, hrec⟩
  rw [splitFasta, splitFastaAux_flatMap filename C T hC records 0] at hmem
  obtain ⟨s, hs, he⟩ := List.mem_map.mp hmem
  obtain ⟨st, ss⟩ := s
  simp only [truncateRecord, Prod.mk.injEq] at he
  obtain ⟨rfl, rfl⟩ := he
  refine ⟨ss, hs, rfl, ?_, ?_⟩
  · intro hlt
    simp only [List.length_take]
    omega
  · intro hle
    exact List.take_of_length_le hle

theorem splitFasta_truncation_witness :
    ((("f.0.tmp".toList : PyStr), [(("a".toList : PyStr), ("XY".toList : PyStr))]) ∈
      splitFasta ("f".toList) [("a".toList, "XYZW".toList)] 1 2 ∧
      (("a".toList : PyStr), ("XY".toList : PyStr)) ∈
        ([(("a".toList : PyStr), ("XY".toList : PyStr))] :
          List (PyStr × PyStr))) ∧
      ∃ s, (("a".toList : PyStr), s) ∈
          ([(("a".toList : PyStr), ("XYZW".toList : PyStr))] :
            List (PyStr × PyStr)) ∧
        ("XY".toList : PyStr) = s.take 2 ∧
        (2 < s.length → ("XY".toList : PyStr).length = 2) ∧
        (s.length ≤ 2 → ("XY".toList : PyStr) = s) :=
  ⟨⟨by
      rw [splitFasta, splitFastaAux]
      norm_num
      rw [splitFastaAux]
      simp [chunkFileName, truncateRecord]
      decide, by decide⟩,
    splitFasta_truncation ("f".toList) [("a".toList, "XYZW".toList)] 1 2
      ("f.0.tmp".toList, [("a".toList, "XY".toList)]) "a".toList ("XY".toList)
      (by
        rw [splitFasta, splitFastaAux]
        norm_num
        rw [splitFastaAux]
        simp [chunkFileName, truncateRecord]
        decide) (by decide)⟩

/-! ## Lemmas about the merge step -/

theorem cleanTabular_no_error (lines : List PyStr) :
    (cleanTabular lines).2 = false →
      (cleanTabular lines).1 = lines.filterMap emittedLine := by
  induction lines with
  | nil => intro _; simp [cleanTabular]
  | cons line rest ih =>
    intro h
    rw [cleanTabular] at h ⊢
    rw [List.filterMap_cons]
    cases hcl : cleanTabularLine line with
    | skipped =>
      rw [hcl] at h
      simp only [hcl, emittedLine]
      exact ih h
    | emitted out =>
      rw [hcl] at h
      simp only [hcl, emittedLine]
      simp only at h
      rw [ih h]
    | schemaError =>
      rw [hcl] at h
      simp at h

theorem list_flatMap_congr {α β : Type} (l : List α) (f g : α → List β)
    (h : ∀ x ∈ l, f x = g x) : l.flatMap f = l.flatMap g := by
  induction l with
  | nil => rfl
  | cons a l ih =>
    rw [List.flatMap_cons, List.flatMap_cons,
      h a (List.mem_cons_self a l),
      ih (fun x hx => h x (List.mem_cons_of_mem a hx))]

theorem mergeAux_no_error (rawOut : PyStr → List PyStr) (files : List PyStr)
    (h : ∀ f ∈ files, (cleanTabular (rawOut f)).2 = false) :
    mergeAux rawOut files =
      (files.flatMap (fun f => (cleanTabular (rawOut f)).1), false) := by
  induction files with
  | nil => simp [mergeAux]
  | cons f rest ih =>
    rw [mergeAux]
    have hf := h f (List.mem_cons_self f rest)
    simp only [hf, Bool.false_eq_true, if_false,
      ih (fun g hg => h g (List.mem_cons_of_mem f hg))]
    rw [List.flatMap_cons]

/-- C8: the merge step writes exactly one header line — `#` followed by the
tab-joined canonical field names — before any data line, then the normalized
lines of all result files as a strict concatenation in chunk-creation order,
each file contributing the in-order image of its lines under the
normalizer. -/
theorem mergeResults_header_concat (tempFiles : List PyStr)
    (rawOut : PyStr → List PyStr)
    (h : ∀ f ∈ tempFiles, (cleanTabular (rawOut f)).2 = false) :
    mergeResults tempFiles rawOut =
      (headerLine ::
        tempFiles.flatMap (fun f => (rawOut f).filterMap emittedLine), false) ∧
      headerLine = '#' :: tabJoin fieldNames := by
  refine ⟨?_, rfl⟩
  rw [mergeResults]
  simp only [mergeAux_no_error rawOut tempFiles h]
  rw [list_flatMap_congr tempFiles _ _
    (fun f hf => cleanTabular_no_error (rawOut f) (h f hf))]

theorem mergeResults_header_concat_witness :
    (∀ f ∈ (["t".toList] : List PyStr),
      (cleanTabular ((fun _ => ([] : List PyStr)) f)).2 = false) ∧
      (mergeResults ["t".toList] (fun _ => ([] : List PyStr)) =
        (headerLine :: (["t".toList] : List PyStr).flatMap
          (fun f => (((fun _ => ([] : List PyStr)) f).filterMap emittedLine)),
          false) ∧
        headerLine = '#' :: tabJoin fieldNames) :=
  ⟨fun _ _ => rfl,
    mergeResults_header_concat ["t".toList] (fun _ => []) (fun _ _ => rfl)⟩

/-! ## Lemmas about the invocation loop and cleanup -/

theorem invokeLoop_fail (organism : PyStr) (exitOracle : PyStr → Nat)
    (pairs : List (PyStr × PyStr)) (fs invoked : List PyStr) (k : Nat)
    (hk : k < pairs.length)
    (hok : ∀ j, j < k → exitOracle (signalpCmd organism
      (pairs.getD j ([], [])).1 (pairs.getD j ([], [])).2) = 0)
    (hfail : exitOracle (signalpCmd organism
      (pairs.getD k ([], [])).1 (pairs.getD k ([], [])).2) ≠ 0) :
    invokeLoop organism exitOracle pairs fs invoked =
      (fs ++ (pairs.take (k + 1)).map (fun p => p.2),
        invoked ++ (pairs.take (k + 1)).map
          (fun p => signalpCmd organism p.1 p.2),
        some (signalpCmd organism (pairs.getD k ([], [])).1
            (pairs.getD k ([], [])).2,
          exitOracle (signalpCmd organism (pairs.getD k ([], [])).1
            (pairs.getD k ([], [])).2))) := by
  induction pairs generalizing fs invoked k with
  | nil => simp at hk
  | cons p rest ih =>
    obtain ⟨fasta, temp⟩ := p
    match k with
    | 0 =>
      simp only [List.getD_cons_zero] at hfail ⊢
      rw [invokeLoop]
      simp only [if_pos hfail]
      simp [List.take_succ_cons]
    | Nat.succ k =>
      have h0 := hok 0 (Nat.succ_pos k)
      simp only [List.getD_cons_zero] at h0
      simp only [List.getD_cons_succ] at hfail ⊢
      rw [invokeLoop]
      simp only [if_neg (show ¬ exitOracle (signalpCmd organism fasta temp) ≠ 0 by
        simp [h0])]
      rw [ih (fs ++ [temp]) (invoked ++ [signalpCmd organism fasta temp]) k
        (by simp only [List.length_cons] at hk; omega)
        (fun j hj => by
          have := hok (j + 1) (by omega)
          simpa [List.getD_cons_succ] using this)
        hfail]
      simp [List.take_succ_cons, List.append_assoc]

theorem cleanUp_cleanUp_eq_nil (fs a b : List PyStr)
    (h : ∀ x ∈ fs, x ∈ a ∨ x ∈ b) :
    cleanUp (cleanUp fs a) b = [] := by
  rw [cleanUp, cleanUp, List.filter_eq_nil_iff]
  intro x hx
  have hmem := List.mem_filter.mp hx
  have hna : x ∉ a := by simpa using hmem.2
  rcases h x hmem.1 with hxa | hxb
  · exact absurd hxa hna
  · simp [hxb]

theorem splitFasta_getElem (filename : PyStr) (records : List (PyStr × PyStr))
    (C T : Nat) (hC : C ≠ 0) (j : Nat)
    (hj : j < (splitFasta filename records C T).length) :
    (splitFasta filename records C T)[j] =
      (chunkFileName filename j,
        ((records.drop (C * j)).take C).map (truncateRecord T)) := by
  have h1 := splitFastaAux_getElem filename C T hC records 0 j hj
  have h2 : (splitFasta filename records C T)[j]? =
      some ((splitFasta filename records C T)[j]) := List.getElem?_eq_getElem hj
  have h3 := Option.some.inj (h2.symm.trans h1)
  rw [h3]
  simp

/-- C6: when the first failing invocation is the one for chunk `k` (all
earlier ones exit 0 and the one for chunk `k` exits non-zero), the run stops after
invoking exactly the commands for chunks 0 to `k`, deletes every chunk input
file and every result file created so far (paths of result files for chunks
not yet run are tolerated), writes the diagnostic naming the failing command
and its exit status, exits with that non-zero status, and never writes the
output table. -/
theorem signalp3_tool_failure (organism fastaFile : PyStr)
    (lines : List PyStr) (exitOracle : PyStr → Nat)
    (rawOut : PyStr → List PyStr) (records : List (PyStr × PyStr)) (k : Nat)
    (horg : organism ∈ validOrganisms)
    (hparse : fastaIterAux lines [] [] [] = (records, false))
    (hk : k < (splitFasta fastaFile records FASTA_CHUNK TRUNCATE).length)
    (hok : ∀ j, j < k → exitOracle (chunkCmd organism fastaFile j) = 0)
    (hfail : exitOracle (chunkCmd organism fastaFile k) ≠ 0) :
    signalp3 organism fastaFile lines exitOracle rawOut =
      { exitCode := exitOracle (chunkCmd organism fastaFile k),
        stderr := [failMsg (exitOracle (chunkCmd organism fastaFile k))
          (chunkCmd organism fastaFile k)],
        invoked := (List.range (k + 1)).map (chunkCmd organism fastaFile),
        fs := [], output := none } ∧
      (signalp3 organism fastaFile lines exitOracle rawOut).exitCode ≠ 0 := by
  have hC : (FASTA_CHUNK : Nat) ≠ 0 := by decide
  have hpairlen : (((splitFasta fastaFile records FASTA_CHUNK TRUNCATE).map
      (fun f => f.1)).zip
        (((splitFasta fastaFile records FASTA_CHUNK TRUNCATE).map
          (fun f => f.1)).map (fun f => f ++ ".out".toList))).length =
      (splitFasta fastaFile records FASTA_CHUNK TRUNCATE).length := by
    simp [List.length_zip]
  have hpair : ∀ j, j < (splitFasta fastaFile records FASTA_CHUNK TRUNCATE).length →
      (((splitFasta fastaFile records FASTA_CHUNK TRUNCATE).map
        (fun f => f.1)).zip
          (((splitFasta fastaFile records FASTA_CHUNK TRUNCATE).map
            (fun f => f.1)).map (fun f => f ++ ".out".toList))).getD j ([], []) =
        (chunkFileName fastaFile j, chunkTempName fastaFile j) := by
    intro j hj
    rw [List.getD_eq_getElem _ _ (by rw [hpairlen]; exact hj), List.getElem_zip,
      List.getElem_map, List.getElem_map, List.getElem_map,
      splitFasta_getElem fastaFile records _ _ hC j hj]
    rfl
  have hloop := invokeLoop_fail organism exitOracle
    (((splitFasta fastaFile records FASTA_CHUNK TRUNCATE).map (fun f => f.1)).zip
      (((splitFasta fastaFile records FASTA_CHUNK TRUNCATE).map
        (fun f => f.1)).map (fun f => f ++ ".out".toList)))
    ((splitFasta fastaFile records FASTA_CHUNK TRUNCATE).map (fun f => f.1)) [] k
    (by rw [hpairlen]; exact hk)
    (fun j hj => by rw [hpair j (Nat.lt_trans hj hk)]; exact hok j hj)
    (by rw [hpair k hk]; exact hfail)
  have hinv : ((((splitFasta fastaFile records FASTA_CHUNK TRUNCATE).map
      (fun f => f.1)).zip
        (((splitFasta fastaFile records FASTA_CHUNK TRUNCATE).map
          (fun f => f.1)).map (fun f => f ++ ".out".toList))).take (k + 1)).map
        (fun p => signalpCmd organism p.1 p.2) =
      (List.range (k + 1)).map (chunkCmd organism fastaFile) := by
    apply List.ext_getElem
    · rw [List.length_map, List.length_take, hpairlen, List.length_map,
        List.length_range]
      omega
    · intro i h1 h2
      rw [List.getElem_map, List.getElem_take, List.getElem_map,
        List.getElem_range]
      have hb : i < (splitFasta fastaFile records FASTA_CHUNK TRUNCATE).length := by
        rw [List.length_map, List.length_take, hpairlen] at h1
        omega
      have hgp := hpair i hb
      rw [List.getD_eq_getElem _ _ (by rw [hpairlen]; exact hb)] at hgp
      rw [hgp]
      rfl
  have hfs : cleanUp (cleanUp
      (((splitFasta fastaFile records FASTA_CHUNK TRUNCATE).map (fun f => f.1)) ++
        ((((splitFasta fastaFile records FASTA_CHUNK TRUNCATE).map
          (fun f => f.1)).zip
            (((splitFasta fastaFile records FASTA_CHUNK TRUNCATE).map
              (fun f => f.1)).map (fun f => f ++ ".out".toList))).take (k + 1)).map
          (fun p => p.2))
        ((splitFasta fastaFile records FASTA_CHUNK TRUNCATE).map (fun f => f.1)))
      (((splitFasta fastaFile records FASTA_CHUNK TRUNCATE).map
        (fun f => f.1)).map (fun f => f ++ ".out".toList)) = [] := by
    apply cleanUp_cleanUp_eq_nil
    intro x hx
    rcases List.mem_append.mp hx with hx | hx
    · exact Or.inl hx
    · right
      obtain ⟨q, hq, rfl⟩ := List.mem_map.mp hx
      exact (List.of_mem_zip (List.mem_of_mem_take hq)).2
  have hcmd := hpair k hk
  have heq : signalp3 organism fastaFile lines exitOracle rawOut =
      { exitCode := exitOracle (chunkCmd organism fastaFile k),
        stderr := [failMsg (exitOracle (chunkCmd organism fastaFile k))
          (chunkCmd organism fastaFile k)],
        invoked := (List.range (k + 1)).map (chunkCmd organism fastaFile),
        fs := [], output := none } := by
    rw [signalp3, if_neg (not_not_intro horg)]
    simp only [hparse]
    simp only [hloop, hcmd, hinv, hfs, List.nil_append]
    rfl
  exact ⟨heq, by rw [heq]; exact hfail⟩

theorem signalp3_tool_failure_witness :
    (("euk".toList : PyStr) ∈ validOrganisms ∧
      fastaIterAux [">a".toList, "MK".toList] [] [] [] =
        ([(("a".toList : PyStr), ("MK".toList : PyStr))], false) ∧
      0 < (splitFasta ("f".toList) [("a".toList, "MK".toList)]
        FASTA_CHUNK TRUNCATE).length ∧
      (∀ j, j < 0 → (fun _ => 7) (chunkCmd ("euk".toList) "f".toList j) = 0) ∧
      (fun _ => 7) (chunkCmd ("euk".toList) "f".toList 0) ≠ 0) ∧
      (signalp3 ("euk".toList) "f".toList [">a".toList, "MK".toList]
          (fun _ => 7) (fun _ => []) =
        { exitCode := (fun _ => 7) (chunkCmd ("euk".toList) "f".toList 0),
          stderr := [failMsg ((fun _ => 7) (chunkCmd ("euk".toList) "f".toList 0))
            (chunkCmd ("euk".toList) "f".toList 0)],
          invoked := (List.range (0 + 1)).map (chunkCmd ("euk".toList) "f".toList),
          fs := [], output := none } ∧
        (signalp3 ("euk".toList) "f".toList [">a".toList, "MK".toList]
          (fun _ => 7) (fun _ => [])).exitCode ≠ 0) :=
  ⟨⟨by decide, by decide,
    by rw [splitFasta, splitFastaAux]; simp [FASTA_CHUNK],
    fun j hj => absurd hj (Nat.not_lt_zero j), by decide⟩,
    signalp3_tool_failure ("euk".toList) "f".toList [">a".toList, "MK".toList]
      (fun _ => 7) (fun _ => []) [("a".toList, "MK".toList)] 0
      (by decide) (by decide)
      (by rw [splitFasta, splitFastaAux]; simp [FASTA_CHUNK])
      (fun j hj => absurd hj (Nat.not_lt_zero j)) (by decide)⟩

/-- C10: on a FASTA input with zero records, `split_fasta` creates no chunk
files and returns the empty list, no external invocation occurs, the output
table consists of exactly the header line, no intermediate file survives,
and the run exits with status 0. -/
theorem signalp3_empty_input (organism fastaFile : PyStr) (lines : List PyStr)
    (exitOracle : PyStr → Nat) (rawOut : PyStr → List PyStr)
    (horg : organism ∈ validOrganisms)
    (hparse : fastaIterAux lines [] [] [] = ([], false)) :
    splitFasta fastaFile [] FASTA_CHUNK TRUNCATE = [] ∧
      signalp3 organism fastaFile lines exitOracle rawOut =
        { exitCode := 0, stderr := [], invoked := [], fs := [],
          output := some [headerLine] } := by
  have hnil : splitFasta fastaFile ([] : List (PyStr × PyStr))
      FASTA_CHUNK TRUNCATE = [] := by
    rw [splitFasta, splitFastaAux]
  refine ⟨hnil, ?_⟩
  rw [signalp3, if_neg (not_not_intro horg)]
  simp only [hparse]
  rw [hnil]
  simp [invokeLoop, mergeResults, mergeAux, cleanUp]

theorem signalp3_empty_input_witness :
    (("euk".toList : PyStr) ∈ validOrganisms ∧
      fastaIterAux ["# c".toList] [] [] [] =
        (([] : List (PyStr × PyStr)), false)) ∧
      (splitFasta ("f".toList) [] FASTA_CHUNK TRUNCATE = [] ∧
        signalp3 ("euk".toList) "f".toList ["# c".toList]
            (fun _ => 0) (fun _ => []) =
          { exitCode := 0, stderr := [], invoked := [], fs := [],
            output := some [headerLine] }) :=
  ⟨⟨by decide, by decide⟩,
    signalp3_empty_input ("euk".toList) "f".toList ["# c".toList]
      (fun _ => 0) (fun _ => []) (by decide) (by decide)⟩
